import Mathlib

/-!
Shallow embedding of mypy/codegraph.py: the incremental codegraph recorder.
The module-level mutable globals (_output, _filter_paths, _module_map) become
an explicit state record threaded through each recording function.
Filesystem paths are modelled in their canonical resolved form, as the list of
path components of the absolute path; pathlib resolve() is therefore the
identity on this representation, and Path.is_relative_to is the component-wise
prefix test. The output sink (stdout or an opened file) is modelled as the
list of JSON records written to it so far (None when recording is disabled);
a JSON record is a list of key/value pairs of strings, in insertion order.
-/

namespace Codegraph

/-- A canonical absolute filesystem path, as its list of components. -/
abbrev FPath : Type := List String

/-- One serialized JSON object of the wire format: key/value pairs in
insertion order (all emitted values are strings in this program, with
the enum kind rendered via its member name and the file path via str). -/
abbrev Record : Type := List (String × String)

/-- Models pathlib Path.is_relative_to on canonical paths:
is_relative_to p filt holds iff filt's components are a prefix of p's,
i.e. p equals filt or is nested under it. -/
def is_relative_to : List String → List String → Bool
  | _, [] => true
  | [], _ :: _ => false
  | a :: as, b :: bs => a == b && is_relative_to as bs

/-- Render a canonical path back to the string stored in the "file" field. -/
def pathToString (p : FPath) : String :=
  "/" ++ String.intercalate "/" p

/-- Models str.rsplit(".", 1)[0]: the string up to (excluding) the last dot,
or the whole string when it has no dot. Computed on the character list:
reverse, drop the chars after the last dot and then the dot itself, reverse. -/
def rsplitDot (s : String) : String :=
  if s.data.contains '.' then
    String.mk (((s.data.reverse.dropWhile (fun c => c != '.')).drop 1).reverse)
  else s

/-- Python dict lookup on the association-list model of _module_map. -/
def dictLookup {α : Type} (k : String) (l : List (String × α)) : Option α :=
  (l.find? (fun kv => kv.1 == k)).map (fun kv => kv.2)

/-- Python dict assignment d[k] = v: replace the value at an existing key in
place, else append the new binding (dict insertion order). -/
def dictInsert {α : Type} (k : String) (v : α) : List (String × α) → List (String × α)
  | [] => [(k, v)]
  | kv :: rest => if kv.1 == k then (k, v) :: rest else kv :: dictInsert k v rest

/-- The recorder's module-level state: _output (None when disabled, else the
sink's contents), _filter_paths, and _module_map. -/
structure RecState where
  output : Option (List Record)
  filter_paths : List FPath
  module_map : List (String × FPath)
deriving DecidableEq

/-- State at interpreter startup: recording disabled, no roots, empty map. -/
def initState : RecState :=
  { output := none, filter_paths := [], module_map := [] }

/-- A MypyFile as the recorder sees it: its path and its _fullname. -/
structure MypyFile where
  path : FPath
  fullname : String
deriving DecidableEq

/-- Models enable(output_path, paths): attach a fresh sink (stdout or a file
newly opened for writing, either way with nothing written yet) and store the
resolved filter roots. -/
def enable (s : RecState) (_output_path : String) (paths : List FPath) : RecState :=
  { s with output := some [], filter_paths := paths }

/-- Models _path_filter: true iff the resolved path is relative to some
configured filter root. -/
def _path_filter (filter_paths : List FPath) (p : FPath) : Bool :=
  filter_paths.any (fun filt => is_relative_to p filt)

/-- Models _record(f, j): when the output is attached and the emitting file f
passes the path filter, write j merged with a "file" field as one line. -/
def _record (s : RecState) (f : MypyFile) (j : Record) : RecState :=
  match s.output with
  | none => s
  | some ls =>
    if _path_filter s.filter_paths f.path then
      { s with output := some (ls ++ [j ++ [("file", pathToString f.path)]]) }
    else s

/-- Models record_module: store the module-name-to-path binding in
_module_map, then emit the module event through _record. -/
def record_module (s : RecState) (f : MypyFile) : RecState :=
  let s1 := { s with module_map := dictInsert f.fullname f.path s.module_map }
  _record s1 f [("type", "module"), ("module", f.fullname)]

/-- Models record_import. -/
def record_import (s : RecState) (f : MypyFile) (importer importee : String) : RecState :=
  _record s f [("type", "import"), ("importer", importer), ("importee", importee)]

/-- Models record_invalidate. -/
def record_invalidate (s : RecState) (f : MypyFile) (module : String) : RecState :=
  _record s f [("type", "invalidate"), ("module", module)]

/-- Models record_class_def. -/
def record_class_def (s : RecState) (f : MypyFile) (fullname : String) : RecState :=
  _record s f [("type", "class_def"), ("fullname", fullname)]

/-- The ClassRefKind enum. -/
inductive ClassRefKind where
  | INHERITANCE
  | INSTANTIATION
  | TYPE_IN_FUNCTION_PROTOTYPE
  | IVAR_TYPE
  | CVAR_TYPE
deriving DecidableEq

/-- The enum member's .name attribute. -/
def ClassRefKind.name : ClassRefKind → String
  | .INHERITANCE => "INHERITANCE"
  | .INSTANTIATION => "INSTANTIATION"
  | .TYPE_IN_FUNCTION_PROTOTYPE => "TYPE_IN_FUNCTION_PROTOTYPE"
  | .IVAR_TYPE => "IVAR_TYPE"
  | .CVAR_TYPE => "CVAR_TYPE"

/-- Models record_class_ref: drop unless the destination module (the dst FQN
with its last dotted component stripped) is in _module_map and its file
passes the path filter; otherwise hand the event to _record. -/
def record_class_ref (s : RecState) (f : MypyFile) (src dst : String)
    (kind : ClassRefKind) : RecState :=
  let dst_module := rsplitDot dst
  match dictLookup dst_module s.module_map with
  | some p =>
    if _path_filter s.filter_paths p then
      _record s f [("type", "class_ref"), ("src", src), ("dst", dst), ("kind", kind.name)]
    else s
  | none => s

/-- Models record_function_def. -/
def record_function_def (s : RecState) (f : MypyFile) (fullname : String) : RecState :=
  _record s f [("type", "function_def"), ("fullname", fullname)]

/-- Models record_function_call: same destination-module gate as
record_class_ref, on the callee FQN. -/
def record_function_call (s : RecState) (f : MypyFile) (caller callee : String) : RecState :=
  let callee_module := rsplitDot callee
  match dictLookup callee_module s.module_map with
  | some p =>
    if _path_filter s.filter_paths p then
      _record s f [("type", "call"), ("caller", caller), ("callee", callee)]
    else s
  | none => s

/-- One call into the recorder's public surface, for reasoning about whole
call sequences. -/
inductive Hook where
  | henable (output_path : String) (paths : List FPath)
  | hmodule (f : MypyFile)
  | himport (f : MypyFile) (importer importee : String)
  | hinvalidate (f : MypyFile) (module : String)
  | hclassDef (f : MypyFile) (fullname : String)
  | hclassRef (f : MypyFile) (src dst : String) (kind : ClassRefKind)
  | hfunctionDef (f : MypyFile) (fullname : String)
  | hcall (f : MypyFile) (caller callee : String)
deriving DecidableEq

/-- Whether a hook is the enable call. -/
def Hook.isEnable : Hook → Bool
  | .henable _ _ => true
  | _ => false

/-- Whether a hook is an on_module_seen call registering module name m. -/
def Hook.registersName (m : String) : Hook → Bool
  | .hmodule f => f.fullname == m
  | _ => false

/-- The emitting file a recorder hook passes to _record (none for enable,
which emits nothing). -/
def Hook.emitter : Hook → Option MypyFile
  | .henable _ _ => none
  | .hmodule f => some f
  | .himport f _ _ => some f
  | .hinvalidate f _ => some f
  | .hclassDef f _ => some f
  | .hclassRef f _ _ _ => some f
  | .hfunctionDef f _ => some f
  | .hcall f _ _ => some f

/-- Dispatch one hook call against the state. -/
def step (s : RecState) : Hook → RecState
  | .henable op paths => enable s op paths
  | .hmodule f => record_module s f
  | .himport f a b => record_import s f a b
  | .hinvalidate f m => record_invalidate s f m
  | .hclassDef f n => record_class_def s f n
  | .hclassRef f src dst k => record_class_ref s f src dst k
  | .hfunctionDef f n => record_function_def s f n
  | .hcall f a b => record_function_call s f a b

/-- Run a sequence of recorder calls from a state. -/
def run (s : RecState) (hooks : List Hook) : RecState :=
  hooks.foldl step s

/-- The records written to the sink so far (empty when no sink is attached). -/
def sinkRecords (s : RecState) : List Record :=
  match s.output with
  | none => []
  | some ls => ls

/-- Number of entries of the module table carrying the key k. -/
def countKey {α : Type} (k : String) (l : List (String × α)) : Nat :=
  (l.filter (fun kv => kv.1 == k)).length

/-- Whether a serialized record carries a field named k. -/
def hasKey (r : Record) (k : String) : Bool :=
  r.any (fun kv => kv.1 == k)

/-- The value of the first field named k of a serialized record. -/
def fieldVal (r : Record) (k : String) : Option String :=
  (r.find? (fun kv => kv.1 == k)).map (fun kv => kv.2)

/-- The required fields of each of the seven event kinds of the wire format
(none for a string that is not one of the seven type discriminators). -/
def requiredFields : String → Option (List String)
  | "module" => some ["module"]
  | "import" => some ["importer", "importee"]
  | "invalidate" => some ["module"]
  | "class_def" => some ["fullname"]
  | "class_ref" => some ["src", "dst", "kind"]
  | "function_def" => some ["fullname"]
  | "call" => some ["caller", "callee"]
  | _ => none

/-- A record is well formed when its "type" field holds one of the seven
event kinds, the required fields of that kind are present, and the
top-level "file" field is present. -/
def wellFormed (r : Record) : Bool :=
  match fieldVal r "type" with
  | some t =>
    match requiredFields t with
    | some fs => fs.all (fun k => hasKey r k) && hasKey r "file"
    | none => false
  | none => false

/-- A file under the filter root of stEnabled. -/
def fileInScope : MypyFile := ⟨["proj", "m.py"], "proj.m"⟩

/-- A file outside every filter root of stEnabled. -/
def fileOutOfScope : MypyFile := ⟨["lib", "x.py"], "lib.x"⟩

/-- A recorder state with recording enabled, filter root /proj, and the
module proj.m registered at /proj/m.py (in scope). -/
def stEnabled : RecState :=
  { output := some []
    filter_paths := [["proj"]]
    module_map := [("proj.m", ["proj", "m.py"])] }

/-! Helper lemmas about paths and the dict model. -/

theorem is_relative_to_refl (p : List String) : is_relative_to p p = true := by
  induction p with
  | nil => rfl
  | cons a as ih => simp [is_relative_to, ih]

theorem is_relative_to_iff (p r : List String) :
    is_relative_to p r = true ↔ ∃ rest, p = r ++ rest := by
  induction r generalizing p with
  | nil =>
    simp [is_relative_to]
  | cons b bs ih =>
    cases p with
    | nil => simp [is_relative_to]
    | cons a as =>
      simp only [is_relative_to, Bool.and_eq_true, beq_iff_eq, ih, List.cons_append,
        List.cons.injEq]
      constructor
      · rintro ⟨hab, rest, hrest⟩
        exact ⟨rest, hab, hrest⟩
      · rintro ⟨rest, hab, hrest⟩
        exact ⟨hab, rest, hrest⟩

theorem path_filter_nil (p : FPath) : _path_filter [] p = false := rfl

theorem path_filter_iff (roots : List FPath) (p : FPath) :
    _path_filter roots p = true ↔ ∃ r ∈ roots, ∃ rest, p = r ++ rest := by
  simp only [_path_filter, List.any_eq_true, is_relative_to_iff]

theorem dictLookup_insert_self {α : Type} (k : String) (v : α) (l : List (String × α)) :
    dictLookup k (dictInsert k v l) = some v := by
  induction l with
  | nil => simp [dictInsert, dictLookup]
  | cons kv rest ih =>
    by_cases h : kv.1 = k
    · simp [dictInsert, dictLookup, h]
    · simp only [dictInsert, dictLookup] at ih ⊢
      simp [h, ih]

theorem dictLookup_insert_other {α : Type} (m k : String) (v : α) (l : List (String × α))
    (h : m ≠ k) : dictLookup m (dictInsert k v l) = dictLookup m l := by
  have hkm : (k == m) = false := by
    simp only [beq_eq_false_iff_ne]
    exact Ne.symm h
  induction l with
  | nil => simp [dictInsert, dictLookup, List.find?, hkm]
  | cons kv rest ih =>
    by_cases hk : kv.1 = k
    · have hkb : (kv.1 == k) = true := by simp [hk]
      have hmb : (kv.1 == m) = false := by rw [hk]; exact hkm
      simp only [dictInsert, hkb, if_true]
      simp [dictLookup, List.find?, hkm, hmb]
    · have hkb : (kv.1 == k) = false := by simp [hk]
      simp only [dictInsert, hkb, Bool.false_eq_true, if_false]
      cases hmv : (kv.1 == m) with
      | true => simp [dictLookup, List.find?, hmv]
      | false =>
        simp only [dictLookup, List.find?, hmv] at ih ⊢
        exact ih

theorem dictInsert_idem {α : Type} (k : String) (v : α) (l : List (String × α)) :
    dictInsert k v (dictInsert k v l) = dictInsert k v l := by
  induction l with
  | nil => simp [dictInsert]
  | cons kv rest ih =>
    by_cases h : kv.1 = k
    · simp [dictInsert, h]
    · simp [dictInsert, h, ih]

theorem countKey_insert {α : Type} (k : String) (v : α) (l : List (String × α))
    (h : countKey k l ≤ 1) : countKey k (dictInsert k v l) = 1 := by
  induction l with
  | nil => simp [dictInsert, countKey]
  | cons kv rest ih =>
    by_cases hk : kv.1 = k
    · simp only [countKey, List.filter, hk, beq_self_eq_true] at h
      simp only [dictInsert, hk, beq_self_eq_true, if_true]
      simp only [countKey, List.filter, beq_self_eq_true, List.length_cons] at h ⊢
      omega
    · have hkb : (kv.1 == k) = false := by simp [hk]
      simp only [countKey, List.filter, hkb] at h
      simp only [dictInsert, hkb, Bool.false_eq_true, if_false]
      simp only [countKey, List.filter, hkb]
      exact ih h

/-! Helper lemmas about _record and the single-hook step. -/

theorem record_module_map (s : RecState) (f : MypyFile) (j : Record) :
    (_record s f j).module_map = s.module_map := by
  obtain ⟨o, fp, mm⟩ := s
  cases o with
  | none => rfl
  | some ls =>
    simp only [_record]
    split <;> rfl

theorem record_filter_paths (s : RecState) (f : MypyFile) (j : Record) :
    (_record s f j).filter_paths = s.filter_paths := by
  obtain ⟨o, fp, mm⟩ := s
  cases o with
  | none => rfl
  | some ls =>
    simp only [_record]
    split <;> rfl

theorem record_of_output_none (s : RecState) (f : MypyFile) (j : Record)
    (h : s.output = none) : _record s f j = s := by
  obtain ⟨o, fp, mm⟩ := s
  cases h
  rfl

theorem record_of_filter_false (s : RecState) (f : MypyFile) (j : Record)
    (h : _path_filter s.filter_paths f.path = false) : _record s f j = s := by
  obtain ⟨o, fp, mm⟩ := s
  cases o with
  | none => rfl
  | some ls =>
    simp only [_record]
    simp [h]

theorem record_output_of_in_scope (s : RecState) (f : MypyFile) (j : Record)
    (ls : List Record) (hout : s.output = some ls)
    (hin : _path_filter s.filter_paths f.path = true) :
    (_record s f j).output = some (ls ++ [j ++ [("file", pathToString f.path)]]) := by
  obtain ⟨o, fp, mm⟩ := s
  cases hout
  simp only [_record, _path_filter] at hin ⊢
  simp [hin]

theorem record_module_module_map (s : RecState) (f : MypyFile) :
    (record_module s f).module_map = dictInsert f.fullname f.path s.module_map := by
  simp only [record_module]
  rw [record_module_map]

theorem record_class_ref_eq_or (s : RecState) (f : MypyFile) (src dst : String)
    (k : ClassRefKind) :
    record_class_ref s f src dst k = s ∨
      record_class_ref s f src dst k =
        _record s f [("type", "class_ref"), ("src", src), ("dst", dst), ("kind", k.name)] := by
  simp only [record_class_ref]
  cases dictLookup (rsplitDot dst) s.module_map with
  | none => exact Or.inl rfl
  | some p =>
    simp only []
    split
    · exact Or.inr rfl
    · exact Or.inl rfl

theorem record_function_call_eq_or (s : RecState) (f : MypyFile) (caller callee : String) :
    record_function_call s f caller callee = s ∨
      record_function_call s f caller callee =
        _record s f [("type", "call"), ("caller", caller), ("callee", callee)] := by
  simp only [record_function_call]
  cases dictLookup (rsplitDot callee) s.module_map with
  | none => exact Or.inl rfl
  | some p =>
    simp only []
    split
    · exact Or.inr rfl
    · exact Or.inl rfl

/-- Every hook either leaves the state alone, is the enable call, re-keys the
module map through record_module, or funnels into _record on a state with the
same output, filter paths and module map. -/
theorem step_cases (s : RecState) (h : Hook) :
    step s h = s
    ∨ (∃ op paths, h = Hook.henable op paths ∧ step s h = enable s op paths)
    ∨ (∃ f, h = Hook.hmodule f ∧
        step s h = _record { s with module_map := dictInsert f.fullname f.path s.module_map }
          f [("type", "module"), ("module", f.fullname)])
    ∨ (∃ f j, step s h = _record s f j) := by
  cases h with
  | henable op paths => exact Or.inr (Or.inl ⟨op, paths, rfl, rfl⟩)
  | hmodule f => exact Or.inr (Or.inr (Or.inl ⟨f, rfl, rfl⟩))
  | himport f a b => exact Or.inr (Or.inr (Or.inr ⟨f, _, rfl⟩))
  | hinvalidate f m => exact Or.inr (Or.inr (Or.inr ⟨f, _, rfl⟩))
  | hclassDef f n => exact Or.inr (Or.inr (Or.inr ⟨f, _, rfl⟩))
  | hclassRef f src dst k =>
    rcases record_class_ref_eq_or s f src dst k with heq | heq
    · exact Or.inl heq
    · exact Or.inr (Or.inr (Or.inr ⟨f, _, heq⟩))
  | hfunctionDef f n => exact Or.inr (Or.inr (Or.inr ⟨f, _, rfl⟩))
  | hcall f a b =>
    rcases record_function_call_eq_or s f a b with heq | heq
    · exact Or.inl heq
    · exact Or.inr (Or.inr (Or.inr ⟨f, _, heq⟩))

/-! Step- and run-level preservation lemmas. -/

theorem step_output_none (s : RecState) (h : Hook) (hs : s.output = none)
    (hne : h.isEnable = false) : (step s h).output = none := by
  rcases step_cases s h with heq | ⟨op, paths, hh, heq⟩ | ⟨f, hh, heq⟩ | ⟨f, j, heq⟩
  · rw [heq]; exact hs
  · rw [hh] at hne; simp [Hook.isEnable] at hne
  · have hs1 : ({ s with module_map := dictInsert f.fullname f.path s.module_map }
        : RecState).output = none := hs
    rw [heq, record_of_output_none _ _ _ hs1]
    exact hs1
  · rw [heq, record_of_output_none _ _ _ hs]; exact hs

theorem run_output_none (hooks : List Hook) : ∀ s : RecState, s.output = none →
    (∀ h ∈ hooks, h.isEnable = false) → (run s hooks).output = none := by
  induction hooks with
  | nil => intro s hs _; exact hs
  | cons hd tl ih =>
    intro s hs hall
    have h1 : (step s hd).output = none :=
      step_output_none s hd hs (hall hd (List.mem_cons_self hd tl))
    exact ih (step s hd) h1 (fun x hx => hall x (List.mem_cons_of_mem hd hx))

theorem step_filter_paths_of_not_enable (s : RecState) (h : Hook)
    (hne : h.isEnable = false) : (step s h).filter_paths = s.filter_paths := by
  rcases step_cases s h with heq | ⟨op, paths, hh, heq⟩ | ⟨f, hh, heq⟩ | ⟨f, j, heq⟩
  · rw [heq]
  · rw [hh] at hne; simp [Hook.isEnable] at hne
  · rw [heq, record_filter_paths]
  · rw [heq, record_filter_paths]

theorem step_output_of_empty_roots (s : RecState) (h : Hook)
    (hroots : s.filter_paths = []) (hne : h.isEnable = false) :
    (step s h).output = s.output := by
  rcases step_cases s h with heq | ⟨op, paths, hh, heq⟩ | ⟨f, hh, heq⟩ | ⟨f, j, heq⟩
  · rw [heq]
  · rw [hh] at hne; simp [Hook.isEnable] at hne
  · rw [heq, record_of_filter_false]
    simp only [hroots]
    exact path_filter_nil f.path
  · rw [heq, record_of_filter_false]
    rw [hroots]
    exact path_filter_nil f.path

theorem run_output_of_empty_roots (hooks : List Hook) : ∀ s : RecState,
    s.filter_paths = [] → (∀ h ∈ hooks, h.isEnable = false) →
    (run s hooks).output = s.output := by
  induction hooks with
  | nil => intro s _ _; rfl
  | cons hd tl ih =>
    intro s hroots hall
    have h1 : hd.isEnable = false := hall hd (List.mem_cons_self hd tl)
    have h2 : (step s hd).filter_paths = [] := by
      rw [step_filter_paths_of_not_enable s hd h1]; exact hroots
    have h3 := ih (step s hd) h2 (fun x hx => hall x (List.mem_cons_of_mem hd hx))
    rw [show run s (hd :: tl) = run (step s hd) tl from rfl, h3,
      step_output_of_empty_roots s hd hroots h1]

theorem step_module_map_cases (s : RecState) (h : Hook) :
    (step s h).module_map = s.module_map
    ∨ ∃ f, h = Hook.hmodule f ∧
        (step s h).module_map = dictInsert f.fullname f.path s.module_map := by
  rcases step_cases s h with heq | ⟨op, paths, hh, heq⟩ | ⟨f, hh, heq⟩ | ⟨f, j, heq⟩
  · rw [heq]; exact Or.inl rfl
  · rw [heq]; exact Or.inl rfl
  · refine Or.inr ⟨f, hh, ?_⟩
    rw [heq, record_module_map]
  · rw [heq, record_module_map]; exact Or.inl rfl

theorem step_lookup_of_not_registers (s : RecState) (h : Hook) (m : String)
    (hreg : h.registersName m = false) :
    dictLookup m (step s h).module_map = dictLookup m s.module_map := by
  rcases step_module_map_cases s h with heq | ⟨f, hh, heq⟩
  · rw [heq]
  · rw [heq]
    rw [hh] at hreg
    simp only [Hook.registersName, beq_eq_false_iff_ne] at hreg
    exact dictLookup_insert_other m f.fullname f.path s.module_map (Ne.symm hreg)

theorem run_lookup_of_not_registers (hooks : List Hook) : ∀ s : RecState, ∀ m : String,
    (∀ h ∈ hooks, h.registersName m = false) →
    dictLookup m (run s hooks).module_map = dictLookup m s.module_map := by
  induction hooks with
  | nil => intro s m _; rfl
  | cons hd tl ih =>
    intro s m hall
    have h1 := step_lookup_of_not_registers s hd m (hall hd (List.mem_cons_self hd tl))
    have h2 := ih (step s hd) m (fun x hx => hall x (List.mem_cons_of_mem hd hx))
    rw [show run s (hd :: tl) = run (step s hd) tl from rfl, h2, h1]

theorem step_registered_stays (s : RecState) (h : Hook) (m : String) (p : FPath)
    (hm : dictLookup m s.module_map = some p) :
    ∃ q, dictLookup m (step s h).module_map = some q := by
  rcases step_module_map_cases s h with heq | ⟨f, hh, heq⟩
  · exact ⟨p, by rw [heq]; exact hm⟩
  · rw [heq]
    by_cases hf : f.fullname = m
    · exact ⟨f.path, by rw [← hf]; exact dictLookup_insert_self f.fullname f.path s.module_map⟩
    · exact ⟨p, by rw [dictLookup_insert_other m f.fullname f.path s.module_map
        (fun hh2 => hf hh2.symm)]; exact hm⟩

theorem run_registered_stays (hooks : List Hook) : ∀ s : RecState, ∀ m : String, ∀ p : FPath,
    dictLookup m s.module_map = some p →
    ∃ q, dictLookup m (run s hooks).module_map = some q := by
  induction hooks with
  | nil => intro s m p hm; exact ⟨p, hm⟩
  | cons hd tl ih =>
    intro s m p hm
    obtain ⟨q, hq⟩ := step_registered_stays s hd m p hm
    exact ih (step s hd) m q hq

/-! Well-formedness of everything the recorder ever writes. -/

theorem mem_sink_of_record (s : RecState) (f : MypyFile) (j : Record) (r : Record)
    (h : r ∈ sinkRecords (_record s f j)) :
    r ∈ sinkRecords s ∨ r = j ++ [("file", pathToString f.path)] := by
  obtain ⟨o, fp, mm⟩ := s
  cases o with
  | none => exact Or.inl h
  | some ls =>
    simp only [_record] at h
    by_cases hf : _path_filter fp f.path = true
    · rw [if_pos hf] at h
      simp only [sinkRecords, List.mem_append, List.mem_singleton] at h
      rcases h with h | h
      · exact Or.inl h
      · exact Or.inr h
    · rw [if_neg hf] at h
      exact Or.inl h

theorem wf_module_shape (m x : String) :
    wellFormed ([("type", "module"), ("module", m)] ++ [("file", x)]) = true := by rfl

theorem wf_import_shape (a b x : String) :
    wellFormed ([("type", "import"), ("importer", a), ("importee", b)] ++ [("file", x)])
      = true := by rfl

theorem wf_invalidate_shape (m x : String) :
    wellFormed ([("type", "invalidate"), ("module", m)] ++ [("file", x)]) = true := by rfl

theorem wf_class_def_shape (n x : String) :
    wellFormed ([("type", "class_def"), ("fullname", n)] ++ [("file", x)]) = true := by rfl

theorem wf_class_ref_shape (a b k x : String) :
    wellFormed ([("type", "class_ref"), ("src", a), ("dst", b), ("kind", k)] ++ [("file", x)])
      = true := by rfl

theorem wf_function_def_shape (n x : String) :
    wellFormed ([("type", "function_def"), ("fullname", n)] ++ [("file", x)]) = true := by rfl

theorem wf_call_shape (a b x : String) :
    wellFormed ([("type", "call"), ("caller", a), ("callee", b)] ++ [("file", x)])
      = true := by rfl

theorem step_wf (s : RecState) (h : Hook)
    (hwf : ∀ r ∈ sinkRecords s, wellFormed r = true) :
    ∀ r ∈ sinkRecords (step s h), wellFormed r = true := by
  intro r hr
  cases h with
  | henable op paths =>
    simp only [step, enable, sinkRecords] at hr
    exact absurd hr (List.not_mem_nil r)
  | hmodule f =>
    simp only [step, record_module] at hr
    rcases mem_sink_of_record _ _ _ _ hr with hmem | heq
    · exact hwf r hmem
    · rw [heq]; exact wf_module_shape f.fullname (pathToString f.path)
  | himport f a b =>
    simp only [step, record_import] at hr
    rcases mem_sink_of_record _ _ _ _ hr with hmem | heq
    · exact hwf r hmem
    · rw [heq]; exact wf_import_shape a b (pathToString f.path)
  | hinvalidate f m =>
    simp only [step, record_invalidate] at hr
    rcases mem_sink_of_record _ _ _ _ hr with hmem | heq
    · exact hwf r hmem
    · rw [heq]; exact wf_invalidate_shape m (pathToString f.path)
  | hclassDef f n =>
    simp only [step, record_class_def] at hr
    rcases mem_sink_of_record _ _ _ _ hr with hmem | heq
    · exact hwf r hmem
    · rw [heq]; exact wf_class_def_shape n (pathToString f.path)
  | hclassRef f src dst k =>
    simp only [step] at hr
    rcases record_class_ref_eq_or s f src dst k with heq | heq
    · rw [heq] at hr; exact hwf r hr
    · rw [heq] at hr
      rcases mem_sink_of_record _ _ _ _ hr with hmem | heq2
      · exact hwf r hmem
      · rw [heq2]; exact wf_class_ref_shape src dst k.name (pathToString f.path)
  | hfunctionDef f n =>
    simp only [step, record_function_def] at hr
    rcases mem_sink_of_record _ _ _ _ hr with hmem | heq
    · exact hwf r hmem
    · rw [heq]; exact wf_function_def_shape n (pathToString f.path)
  | hcall f a b =>
    simp only [step] at hr
    rcases record_function_call_eq_or s f a b with heq | heq
    · rw [heq] at hr; exact hwf r hr
    · rw [heq] at hr
      rcases mem_sink_of_record _ _ _ _ hr with hmem | heq2
      · exact hwf r hmem
      · rw [heq2]; exact wf_call_shape a b (pathToString f.path)

theorem run_wf (hooks : List Hook) : ∀ s : RecState,
    (∀ r ∈ sinkRecords s, wellFormed r = true) →
    ∀ r ∈ sinkRecords (run s hooks), wellFormed r = true := by
  induction hooks with
  | nil => intro s hwf; exact hwf
  | cons hd tl ih => intro s hwf; exact ih (step s hd) (step_wf s hd hwf)

/-- _record appends to the sink: its sink is the old sink plus some extra
records, each of which is exactly j merged with the emitting file's path. -/
theorem sink_record_append (s : RecState) (f : MypyFile) (j : Record) :
    ∃ extra, sinkRecords (_record s f j) = sinkRecords s ++ extra
      ∧ ∀ r ∈ extra, r = j ++ [("file", pathToString f.path)] := by
  obtain ⟨o, fp, mm⟩ := s
  cases o with
  | none => exact ⟨[], (List.append_nil _).symm, fun r hr => absurd hr (List.not_mem_nil r)⟩
  | some ls =>
    simp only [_record]
    by_cases hf : _path_filter fp f.path = true
    · rw [if_pos hf]
      refine ⟨[j ++ [("file", pathToString f.path)]], rfl, ?_⟩
      intro r hr
      rw [List.mem_singleton] at hr
      exact hr
    · rw [if_neg hf]
      exact ⟨[], (List.append_nil _).symm, fun r hr => absurd hr (List.not_mem_nil r)⟩

/-- Reading the file field of a record whose body j has no file key yields
exactly the merged emitting-file path. -/
theorem fieldVal_append_file (j : Record) (x : String)
    (hj : j.all (fun kv => !(kv.1 == "file")) = true) :
    fieldVal (j ++ [("file", x)]) "file" = some x := by
  induction j with
  | nil => rfl
  | cons kv rest ih =>
    simp only [List.all_cons, Bool.and_eq_true, Bool.not_eq_true'] at hj
    simp only [fieldVal, List.cons_append]
    rw [List.find?_cons_of_neg _ (by simp [hj.1])]
    exact ih hj.2

/-- Packaging of sink_record_append: when the body j is well formed after the
file merge and free of a file key, every record a _record call appends is
well formed and carries the emitting file's path in its file field. -/
theorem record_extra (s : RecState) (f : MypyFile) (j : Record)
    (hwf : wellFormed (j ++ [("file", pathToString f.path)]) = true)
    (hj : j.all (fun kv => !(kv.1 == "file")) = true) :
    ∃ extra, sinkRecords (_record s f j) = sinkRecords s ++ extra
      ∧ ∀ r ∈ extra, wellFormed r = true
        ∧ fieldVal r "file" = some (pathToString f.path) := by
  obtain ⟨extra, he, hr⟩ := sink_record_append s f j
  refine ⟨extra, he, ?_⟩
  intro r hmem
  rw [hr r hmem]
  exact ⟨hwf, fieldVal_append_file j (pathToString f.path) hj⟩

/-- Every hook that carries an emitting file appends to the sink only records
that are well formed and whose file field holds that emitting file's path. -/
theorem step_appends_emitter (s : RecState) (h : Hook) (f : MypyFile)
    (hf : Hook.emitter h = some f) :
    ∃ extra, sinkRecords (step s h) = sinkRecords s ++ extra
      ∧ ∀ r ∈ extra, wellFormed r = true
        ∧ fieldVal r "file" = some (pathToString f.path) := by
  cases h with
  | henable op paths => simp [Hook.emitter] at hf
  | hmodule f2 =>
    simp only [Hook.emitter, Option.some.injEq] at hf
    subst hf
    simp only [step, record_module]
    have h0 : sinkRecords ({ s with
        module_map := dictInsert f2.fullname f2.path s.module_map } : RecState)
        = sinkRecords s := rfl
    obtain ⟨extra, he, hp⟩ := record_extra
      { s with module_map := dictInsert f2.fullname f2.path s.module_map } f2
      [("type", "module"), ("module", f2.fullname)]
      (wf_module_shape f2.fullname (pathToString f2.path)) (by rfl)
    exact ⟨extra, by rw [he, h0], hp⟩
  | himport f2 a b =>
    simp only [Hook.emitter, Option.some.injEq] at hf
    subst hf
    simp only [step, record_import]
    exact record_extra s f2 [("type", "import"), ("importer", a), ("importee", b)]
      (wf_import_shape a b (pathToString f2.path)) (by rfl)
  | hinvalidate f2 m =>
    simp only [Hook.emitter, Option.some.injEq] at hf
    subst hf
    simp only [step, record_invalidate]
    exact record_extra s f2 [("type", "invalidate"), ("module", m)]
      (wf_invalidate_shape m (pathToString f2.path)) (by rfl)
  | hclassDef f2 n =>
    simp only [Hook.emitter, Option.some.injEq] at hf
    subst hf
    simp only [step, record_class_def]
    exact record_extra s f2 [("type", "class_def"), ("fullname", n)]
      (wf_class_def_shape n (pathToString f2.path)) (by rfl)
  | hclassRef f2 src dst k =>
    simp only [Hook.emitter, Option.some.injEq] at hf
    subst hf
    simp only [step]
    rcases record_class_ref_eq_or s f2 src dst k with heq | heq
    · rw [heq]
      exact ⟨[], (List.append_nil _).symm, fun r hr => absurd hr (List.not_mem_nil r)⟩
    · rw [heq]
      exact record_extra s f2
        [("type", "class_ref"), ("src", src), ("dst", dst), ("kind", k.name)]
        (wf_class_ref_shape src dst k.name (pathToString f2.path)) (by rfl)
  | hfunctionDef f2 n =>
    simp only [Hook.emitter, Option.some.injEq] at hf
    subst hf
    simp only [step, record_function_def]
    exact record_extra s f2 [("type", "function_def"), ("fullname", n)]
      (wf_function_def_shape n (pathToString f2.path)) (by rfl)
  | hcall f2 a b =>
    simp only [Hook.emitter, Option.some.injEq] at hf
    subst hf
    simp only [step]
    rcases record_function_call_eq_or s f2 a b with heq | heq
    · rw [heq]
      exact ⟨[], (List.append_nil _).symm, fun r hr => absurd hr (List.not_mem_nil r)⟩
    · rw [heq]
      exact record_extra s f2 [("type", "call"), ("caller", a), ("callee", b)]
        (wf_call_shape a b (pathToString f2.path)) (by rfl)

/-- Shared emission lemma: when recording is enabled and the destination
module of a class_ref/call is registered and in scope, the output is extended
exactly when the emitting file passes the path filter. -/
theorem emission_iff_emitting_in_scope (s : RecState) (f : MypyFile)
    (src dst caller callee : String) (k : ClassRefKind) (ls : List Record) (p q : FPath)
    (hout : s.output = some ls)
    (hregd : dictLookup (rsplitDot dst) s.module_map = some p)
    (hind : _path_filter s.filter_paths p = true)
    (hregc : dictLookup (rsplitDot callee) s.module_map = some q)
    (hinc : _path_filter s.filter_paths q = true) :
    (record_class_ref s f src dst k).output =
      (if _path_filter s.filter_paths f.path then
        some (ls ++ [[("type", "class_ref"), ("src", src), ("dst", dst), ("kind", k.name),
          ("file", pathToString f.path)]])
      else some ls)
    ∧ (record_function_call s f caller callee).output =
      (if _path_filter s.filter_paths f.path then
        some (ls ++ [[("type", "call"), ("caller", caller), ("callee", callee),
          ("file", pathToString f.path)]])
      else some ls) := by
  have h1 : record_class_ref s f src dst k =
      _record s f [("type", "class_ref"), ("src", src), ("dst", dst), ("kind", k.name)] := by
    simp only [record_class_ref, hregd]
    rw [if_pos hind]
  have h2 : record_function_call s f caller callee =
      _record s f [("type", "call"), ("caller", caller), ("callee", callee)] := by
    simp only [record_function_call, hregc]
    rw [if_pos hinc]
  constructor
  · rw [h1]
    cases hf : _path_filter s.filter_paths f.path with
    | true =>
      rw [if_pos rfl, record_output_of_in_scope s f _ ls hout hf]
      rfl
    | false => rw [if_neg (by simp), record_of_filter_false s f _ hf, hout]
  · rw [h2]
    cases hf : _path_filter s.filter_paths f.path with
    | true =>
      rw [if_pos rfl, record_output_of_in_scope s f _ ls hout hf]
      rfl
    | false => rw [if_neg (by simp), record_of_filter_false s f _ hf, hout]

/-! Claim theorems. -/

/-- Claim C1, as stated, is false: record_class_ref funnels into _record,
which also filters on the emitting file, so an edge whose destination module
is registered and in scope but whose emitting file is outside every filter
root is NOT emitted. Concretely: recording is enabled with sink contents [],
the destination module proj.m of dst proj.m.D is registered at /proj/m.py
which passes the filter, the emitting file /lib/x.py does not pass the
filter, and after the record_class_ref call the sink is still empty. -/
theorem c1_counterexample :
    stEnabled.output = some []
    ∧ dictLookup (rsplitDot "proj.m.D") stEnabled.module_map = some ["proj", "m.py"]
    ∧ _path_filter stEnabled.filter_paths ["proj", "m.py"] = true
    ∧ _path_filter stEnabled.filter_paths fileOutOfScope.path = false
    ∧ (record_class_ref stEnabled fileOutOfScope "lib.x.C" "proj.m.D"
        ClassRefKind.INHERITANCE).output = some [] :=
  ⟨rfl, rfl, rfl, rfl, rfl⟩

/-- Claim C1 (amended): when recording is enabled and the destination module
of an on_class_ref/on_function_call is registered and resolves under the
filter roots, the event is emitted iff the emitting file also resolves under
the filter roots; the shared _record path applies the emitting-file filter to
these events as well, so edges from out-of-scope source files are dropped. -/
theorem c1_scoping_needs_both_filters (s : RecState) (f : MypyFile)
    (src dst caller callee : String) (k : ClassRefKind) (ls : List Record) (p q : FPath)
    (hout : s.output = some ls)
    (hregd : dictLookup (rsplitDot dst) s.module_map = some p)
    (hind : _path_filter s.filter_paths p = true)
    (hregc : dictLookup (rsplitDot callee) s.module_map = some q)
    (hinc : _path_filter s.filter_paths q = true) :
    (record_class_ref s f src dst k).output =
      (if _path_filter s.filter_paths f.path then
        some (ls ++ [[("type", "class_ref"), ("src", src), ("dst", dst), ("kind", k.name),
          ("file", pathToString f.path)]])
      else some ls)
    ∧ (record_function_call s f caller callee).output =
      (if _path_filter s.filter_paths f.path then
        some (ls ++ [[("type", "call"), ("caller", caller), ("callee", callee),
          ("file", pathToString f.path)]])
      else some ls) :=
  emission_iff_emitting_in_scope s f src dst caller callee k ls p q
    hout hregd hind hregc hinc

/-- Closed instance of c1_scoping_needs_both_filters at a concrete state. -/
theorem c1_scoping_needs_both_filters_witness :
    (record_class_ref stEnabled fileInScope "lib.x.C" "proj.m.D"
        ClassRefKind.INHERITANCE).output =
      (if _path_filter stEnabled.filter_paths fileInScope.path then
        some ([] ++ [[("type", "class_ref"), ("src", "lib.x.C"), ("dst", "proj.m.D"),
          ("kind", ClassRefKind.INHERITANCE.name), ("file", pathToString fileInScope.path)]])
      else some [])
    ∧ (record_function_call stEnabled fileInScope "lib.x.g" "proj.m.f").output =
      (if _path_filter stEnabled.filter_paths fileInScope.path then
        some ([] ++ [[("type", "call"), ("caller", "lib.x.g"), ("callee", "proj.m.f"),
          ("file", pathToString fileInScope.path)]])
      else some []) :=
  c1_scoping_needs_both_filters stEnabled fileInScope "lib.x.C" "proj.m.D" "lib.x.g"
    "proj.m.f" ClassRefKind.INHERITANCE [] ["proj", "m.py"] ["proj", "m.py"]
    rfl rfl rfl rfl rfl

/-- Claim C2, as stated, is false: an on_function_call made while recording
is enabled, with the callee module registered and in scope, emits nothing
when the emitting file is out of scope, because _record also filters on the
emitting file. Concretely: with the same enabled state, calling
record_function_call from /lib/x.py leaves the sink empty. -/
theorem c2_counterexample :
    stEnabled.output = some []
    ∧ dictLookup (rsplitDot "proj.m.f") stEnabled.module_map = some ["proj", "m.py"]
    ∧ _path_filter stEnabled.filter_paths ["proj", "m.py"] = true
    ∧ _path_filter stEnabled.filter_paths fileOutOfScope.path = false
    ∧ (record_function_call stEnabled fileOutOfScope "lib.x.g" "proj.m.f").output = some [] :=
  ⟨rfl, rfl, rfl, rfl, rfl⟩

/-- Claim C2 (amended): when recording is enabled, the destination module is
registered and in scope, AND the emitting file is in scope, exactly one event
is appended whose src/dst (resp. caller/callee) fields are byte-for-byte the
fully-qualified names passed in. -/
theorem c2_exact_fields_when_emitted (s : RecState) (f : MypyFile)
    (src dst caller callee : String) (k : ClassRefKind) (ls : List Record) (p q : FPath)
    (hout : s.output = some ls)
    (hregd : dictLookup (rsplitDot dst) s.module_map = some p)
    (hind : _path_filter s.filter_paths p = true)
    (hregc : dictLookup (rsplitDot callee) s.module_map = some q)
    (hinc : _path_filter s.filter_paths q = true)
    (hf : _path_filter s.filter_paths f.path = true) :
    (record_class_ref s f src dst k).output =
      some (ls ++ [[("type", "class_ref"), ("src", src), ("dst", dst), ("kind", k.name),
        ("file", pathToString f.path)]])
    ∧ (record_function_call s f caller callee).output =
      some (ls ++ [[("type", "call"), ("caller", caller), ("callee", callee),
        ("file", pathToString f.path)]]) := by
  obtain ⟨e1, e2⟩ := emission_iff_emitting_in_scope s f src dst caller callee k ls p q
    hout hregd hind hregc hinc
  rw [hf, if_pos rfl] at e1 e2
  exact ⟨e1, e2⟩

/-- Closed instance of c2_exact_fields_when_emitted at a concrete state. -/
theorem c2_exact_fields_when_emitted_witness :
    (record_class_ref stEnabled fileInScope "proj.m.A" "proj.m.B"
        ClassRefKind.INSTANTIATION).output =
      some ([] ++ [[("type", "class_ref"), ("src", "proj.m.A"), ("dst", "proj.m.B"),
        ("kind", ClassRefKind.INSTANTIATION.name), ("file", pathToString fileInScope.path)]])
    ∧ (record_function_call stEnabled fileInScope "proj.m.g" "proj.m.f").output =
      some ([] ++ [[("type", "call"), ("caller", "proj.m.g"), ("callee", "proj.m.f"),
        ("file", pathToString fileInScope.path)]]) :=
  c2_exact_fields_when_emitted stEnabled fileInScope "proj.m.A" "proj.m.B" "proj.m.g"
    "proj.m.f" ClassRefKind.INSTANTIATION [] ["proj", "m.py"] ["proj", "m.py"]
    rfl rfl rfl rfl rfl rfl

/-- Claim C3, as stated, is false: record_module assigns unconditionally, so
registering the same module name again with a DIFFERENT path does change the
mapped path. Concretely: after on_module_seen of module m at /a/one.py and
then at /a/two.py, the table maps m to /a/two.py, a different path. -/
theorem c3_counterexample :
    dictLookup "m" (record_module initState ⟨["a", "one.py"], "m"⟩).module_map
      = some ["a", "one.py"]
    ∧ dictLookup "m" (record_module (record_module initState ⟨["a", "one.py"], "m"⟩)
        ⟨["a", "two.py"], "m"⟩).module_map = some ["a", "two.py"]
    ∧ (["a", "one.py"] : FPath) ≠ ["a", "two.py"] :=
  ⟨rfl, rfl, by decide⟩

/-- Claim C3 (amended): once a module name is registered it is never removed
(lookups keep succeeding after any sequence of recorder calls), and its
mapped path is changed only by a later on_module_seen for that same name
(which overwrites, last write wins); no other recorder operation changes it. -/
theorem c3_append_only_amended (s : RecState) (hooks : List Hook) (m : String) (p : FPath)
    (hm : dictLookup m s.module_map = some p) :
    (∃ q, dictLookup m (run s hooks).module_map = some q)
    ∧ ((∀ h ∈ hooks, h.registersName m = false) →
        dictLookup m (run s hooks).module_map = some p) :=
  ⟨run_registered_stays hooks s m p hm,
   fun hall => by rw [run_lookup_of_not_registers hooks s m hall]; exact hm⟩

/-- Closed instance of c3_append_only_amended at a concrete state. -/
theorem c3_append_only_amended_witness :
    (∃ q, dictLookup "proj.m"
      (run stEnabled [Hook.hinvalidate fileInScope "proj.m",
        Hook.hmodule ⟨["proj", "n.py"], "proj.n"⟩]).module_map = some q)
    ∧ dictLookup "proj.m"
        (run stEnabled [Hook.hinvalidate fileInScope "proj.m",
          Hook.hmodule ⟨["proj", "n.py"], "proj.n"⟩]).module_map
        = some ["proj", "m.py"] :=
  ⟨(c3_append_only_amended stEnabled
      [Hook.hinvalidate fileInScope "proj.m", Hook.hmodule ⟨["proj", "n.py"], "proj.n"⟩]
      "proj.m" ["proj", "m.py"] rfl).1,
   (c3_append_only_amended stEnabled
      [Hook.hinvalidate fileInScope "proj.m", Hook.hmodule ⟨["proj", "n.py"], "proj.n"⟩]
      "proj.m" ["proj", "m.py"] rfl).2 (by decide)⟩

/-- Claim C4: an on_class_ref or on_function_call whose destination module
(the FQN with its last dotted component stripped) is not in the module table
returns the state completely unchanged — no event, no buffering, regardless
of the enabled flag or any path's scope. -/
theorem c4_unregistered_silently_dropped (s : RecState) (f : MypyFile)
    (src dst caller callee : String) (k : ClassRefKind)
    (h1 : dictLookup (rsplitDot dst) s.module_map = none)
    (h2 : dictLookup (rsplitDot callee) s.module_map = none) :
    record_class_ref s f src dst k = s ∧ record_function_call s f caller callee = s := by
  constructor
  · simp only [record_class_ref, h1]
  · simp only [record_function_call, h2]

/-- Closed instance of c4_unregistered_silently_dropped: ext.lib was never
registered, so both hooks are exact no-ops even in an enabled state. -/
theorem c4_unregistered_silently_dropped_witness :
    record_class_ref stEnabled fileInScope "proj.m.A" "ext.lib.C"
      ClassRefKind.INSTANTIATION = stEnabled
    ∧ record_function_call stEnabled fileInScope "proj.m.g" "ext.lib.h" = stEnabled :=
  c4_unregistered_silently_dropped stEnabled fileInScope "proj.m.A" "ext.lib.C"
    "proj.m.g" "ext.lib.h" ClassRefKind.INSTANTIATION rfl rfl

/-- Claim C5: with an empty list of filter roots the path filter rejects
every path, so after enabling with an empty root list no later hook call
writes anything to the sink (empty roots mean accept nothing). -/
theorem c5_empty_roots_accept_nothing :
    (∀ p : FPath, _path_filter [] p = false)
    ∧ (∀ (s : RecState) (hooks : List Hook), s.filter_paths = [] →
        (∀ h ∈ hooks, h.isEnable = false) → (run s hooks).output = s.output)
    ∧ (∀ (s0 : RecState) (op : String) (hooks : List Hook),
        (∀ h ∈ hooks, h.isEnable = false) →
        (run (enable s0 op []) hooks).output = some []) := by
  refine ⟨path_filter_nil, fun s hooks h1 h2 => run_output_of_empty_roots hooks s h1 h2, ?_⟩
  intro s0 op hooks hall
  rw [run_output_of_empty_roots hooks (enable s0 op []) rfl hall]
  rfl

/-- Closed instance of c5_empty_roots_accept_nothing. -/
theorem c5_empty_roots_accept_nothing_witness :
    (run (enable initState "stdout" [])
      [Hook.hmodule fileInScope, Hook.hfunctionDef fileInScope "proj.m.f",
        Hook.hcall fileInScope "proj.m.g" "proj.m.f"]).output = some [] :=
  c5_empty_roots_accept_nothing.2.2 initState "stdout"
    [Hook.hmodule fileInScope, Hook.hfunctionDef fileInScope "proj.m.f",
      Hook.hcall fileInScope "proj.m.g" "proj.m.f"] (by decide)

/-- Claim C6: for every sequence of hook calls that never contains the enable
call, starting from interpreter startup, the output stays detached and the
sink receives zero writes. -/
theorem c6_disabled_zero_writes (hooks : List Hook)
    (hne : ∀ h ∈ hooks, h.isEnable = false) :
    (run initState hooks).output = none ∧ sinkRecords (run initState hooks) = [] := by
  have h1 := run_output_none hooks initState rfl hne
  refine ⟨h1, ?_⟩
  unfold sinkRecords
  rw [h1]

/-- Closed instance of c6_disabled_zero_writes. -/
theorem c6_disabled_zero_writes_witness :
    (run initState
      [Hook.hmodule fileInScope, Hook.himport fileInScope "proj.m" "lib.x",
        Hook.hinvalidate fileInScope "proj.m",
        Hook.hclassDef fileInScope "proj.m.C",
        Hook.hclassRef fileInScope "proj.m.C" "proj.m.D" ClassRefKind.INHERITANCE,
        Hook.hfunctionDef fileInScope "proj.m.f",
        Hook.hcall fileInScope "proj.m.g" "proj.m.f"]).output = none
    ∧ sinkRecords (run initState
        [Hook.hmodule fileInScope, Hook.himport fileInScope "proj.m" "lib.x",
          Hook.hinvalidate fileInScope "proj.m",
          Hook.hclassDef fileInScope "proj.m.C",
          Hook.hclassRef fileInScope "proj.m.C" "proj.m.D" ClassRefKind.INHERITANCE,
          Hook.hfunctionDef fileInScope "proj.m.f",
          Hook.hcall fileInScope "proj.m.g" "proj.m.f"]) = [] :=
  c6_disabled_zero_writes
    [Hook.hmodule fileInScope, Hook.himport fileInScope "proj.m" "lib.x",
      Hook.hinvalidate fileInScope "proj.m",
      Hook.hclassDef fileInScope "proj.m.C",
      Hook.hclassRef fileInScope "proj.m.C" "proj.m.D" ClassRefKind.INHERITANCE,
      Hook.hfunctionDef fileInScope "proj.m.f",
      Hook.hcall fileInScope "proj.m.g" "proj.m.f"] (by decide)

/-- Claim C7: module registration is idempotent and last-write-wins. When the
table holds at most one entry for the name, registering the same name with
the same path again leaves the table literally identical with exactly one
entry for the name, and registering a different path overwrites so that
lookup returns the most recent path (still exactly one entry). -/
theorem c7_register_idempotent_lww (s : RecState) (n : String) (p q : FPath)
    (hcount : countKey n s.module_map ≤ 1) :
    (record_module (record_module s ⟨p, n⟩) ⟨p, n⟩).module_map
        = (record_module s ⟨p, n⟩).module_map
    ∧ countKey n (record_module s ⟨p, n⟩).module_map = 1
    ∧ dictLookup n (record_module s ⟨p, n⟩).module_map = some p
    ∧ countKey n (record_module (record_module s ⟨p, n⟩) ⟨q, n⟩).module_map = 1
    ∧ dictLookup n (record_module (record_module s ⟨p, n⟩) ⟨q, n⟩).module_map = some q := by
  have e1 : (record_module s ⟨p, n⟩).module_map = dictInsert n p s.module_map :=
    record_module_module_map s ⟨p, n⟩
  have e2 : (record_module (record_module s ⟨p, n⟩) ⟨p, n⟩).module_map
      = dictInsert n p (dictInsert n p s.module_map) := by
    rw [record_module_module_map, e1]
  have e3 : (record_module (record_module s ⟨p, n⟩) ⟨q, n⟩).module_map
      = dictInsert n q (dictInsert n p s.module_map) := by
    rw [record_module_module_map, e1]
  have hc1 : countKey n (dictInsert n p s.module_map) = 1 :=
    countKey_insert n p s.module_map hcount
  refine ⟨?_, ?_, ?_, ?_, ?_⟩
  · rw [e2, e1, dictInsert_idem]
  · rw [e1]; exact hc1
  · rw [e1]; exact dictLookup_insert_self n p s.module_map
  · rw [e3]; exact countKey_insert n q _ (le_of_eq hc1)
  · rw [e3]; exact dictLookup_insert_self n q _

/-- Closed instance of c7_register_idempotent_lww at the startup state. -/
theorem c7_register_idempotent_lww_witness :
    (record_module (record_module initState ⟨["a", "x.py"], "pkg.x"⟩)
        ⟨["a", "x.py"], "pkg.x"⟩).module_map
      = (record_module initState ⟨["a", "x.py"], "pkg.x"⟩).module_map
    ∧ countKey "pkg.x" (record_module initState ⟨["a", "x.py"], "pkg.x"⟩).module_map = 1
    ∧ dictLookup "pkg.x" (record_module initState ⟨["a", "x.py"], "pkg.x"⟩).module_map
      = some ["a", "x.py"]
    ∧ countKey "pkg.x" (record_module (record_module initState ⟨["a", "x.py"], "pkg.x"⟩)
        ⟨["b", "x.py"], "pkg.x"⟩).module_map = 1
    ∧ dictLookup "pkg.x" (record_module (record_module initState ⟨["a", "x.py"], "pkg.x"⟩)
        ⟨["b", "x.py"], "pkg.x"⟩).module_map = some ["b", "x.py"] :=
  c7_register_idempotent_lww initState "pkg.x" ["a", "x.py"] ["b", "x.py"] (by decide)

/-- Claim C8: the path filter accepts exactly the paths equal to or nested
under some canonicalized filter root (component-wise prefix), every
configured root is itself in scope, and a sibling sharing only a string
prefix with a root (root /a/b, path /a/bc) is out of scope. -/
theorem c8_path_filter_prefix_semantics :
    (∀ (roots : List FPath) (p : FPath),
      _path_filter roots p = true ↔ ∃ r ∈ roots, ∃ rest, p = r ++ rest)
    ∧ (∀ (roots : List FPath) (r : FPath), r ∈ roots → _path_filter roots r = true)
    ∧ _path_filter [["a", "b"]] ["a", "bc"] = false := by
  refine ⟨path_filter_iff, ?_, by decide⟩
  intro roots r hr
  simp only [_path_filter, List.any_eq_true]
  exact ⟨r, hr, is_relative_to_refl r⟩

/-- Closed instance of c8_path_filter_prefix_semantics: a root is in scope. -/
theorem c8_path_filter_prefix_semantics_witness :
    _path_filter [["a", "b"]] ["a", "b"] = true :=
  c8_path_filter_prefix_semantics.2.1 [["a", "b"]] ["a", "b"] (by decide)

/-- Claim C9: every record the recorder ever writes to the sink, over any
sequence of hook calls from startup, is a well-formed object whose type field
is one of the seven event kinds and which carries the required fields of that
kind plus a top-level file field; and every record any single hook call
appends to the sink carries in that file field exactly the emitting file's
path (the path of the MypyFile the hook was called with). -/
theorem c9_wire_format_wellformed :
    (∀ (hooks : List Hook) (r : Record),
      r ∈ sinkRecords (run initState hooks) → wellFormed r = true)
    ∧ (∀ (s : RecState) (h : Hook) (f : MypyFile), Hook.emitter h = some f →
        ∃ extra, sinkRecords (step s h) = sinkRecords s ++ extra
          ∧ ∀ r ∈ extra, wellFormed r = true
            ∧ fieldVal r "file" = some (pathToString f.path)) :=
  ⟨fun hooks r hr =>
    run_wf hooks initState (fun r2 hr2 => absurd hr2 (List.not_mem_nil r2)) r hr,
   fun s h f hf => step_appends_emitter s h f hf⟩

/-- Closed instance of c9_wire_format_wellformed: a record of a concrete run
is well formed, and a concrete module hook appends only records carrying its
emitting file's path. -/
theorem c9_wire_format_wellformed_witness :
    wellFormed [("type", "module"), ("module", "proj.m"), ("file", "/proj/m.py")] = true
    ∧ ∃ extra, sinkRecords (step stEnabled (Hook.hmodule fileInScope))
        = sinkRecords stEnabled ++ extra
        ∧ ∀ r ∈ extra, wellFormed r = true
          ∧ fieldVal r "file" = some (pathToString fileInScope.path) :=
  ⟨c9_wire_format_wellformed.1 [Hook.henable "stdout" [["proj"]], Hook.hmodule fileInScope]
    [("type", "module"), ("module", "proj.m"), ("file", "/proj/m.py")] (by decide),
   c9_wire_format_wellformed.2 stEnabled (Hook.hmodule fileInScope) fileInScope rfl⟩

/-- Claim C10: record_module inserts the module-name-to-path binding
unconditionally: the lookup succeeds afterwards even when recording is
disabled (in which case nothing is written) or the module's own file is out
of scope (in which case the sink is unchanged). -/
theorem c10_register_unconditional (s : RecState) (f : MypyFile) :
    dictLookup f.fullname (record_module s f).module_map = some f.path
    ∧ (s.output = none → (record_module s f).output = none)
    ∧ (_path_filter s.filter_paths f.path = false →
        (record_module s f).output = s.output) := by
  refine ⟨?_, ?_, ?_⟩
  · rw [record_module_module_map]
    exact dictLookup_insert_self f.fullname f.path s.module_map
  · intro h
    simp only [record_module]
    have hs1 : ({ s with module_map := dictInsert f.fullname f.path s.module_map }
        : RecState).output = none := h
    rw [record_of_output_none _ _ _ hs1]
    exact hs1
  · intro h
    simp only [record_module]
    have h2 : _path_filter ({ s with
        module_map := dictInsert f.fullname f.path s.module_map }
        : RecState).filter_paths f.path = false := h
    rw [record_of_filter_false _ _ _ h2]

/-- Closed instance of c10_register_unconditional: registration succeeds from
the disabled startup state and nothing is written. -/
theorem c10_register_unconditional_witness :
    dictLookup "lib.x" (record_module initState fileOutOfScope).module_map
      = some ["lib", "x.py"]
    ∧ (record_module initState fileOutOfScope).output = none :=
  ⟨(c10_register_unconditional initState fileOutOfScope).1,
   (c10_register_unconditional initState fileOutOfScope).2.1 rfl⟩

end Codegraph
